import Mathlib

/-!
Verification development for the issuu-scraper repository.

Strings are modelled as `List Char` (a Python `str` is a sequence of code
points).  Behaviour of the Python standard library that the scripts call
(`unicodedata.normalize`, `unicodedata.combining`, `str.isprintable`, the
regex class `\s`) is abstracted in the `PyText` structure; theorems take the
facts they need about those functions as hypotheses, and witnesses
instantiate them with concrete functions that agree with CPython on the
inputs used.
-/

/-- Abstraction of the Python text facilities used by `sanitize_filename`:
`nfkd` models `unicodedata.normalize ("NFKD", s)`, `combining c` models
`unicodedata.combining c ≠ 0`, `printable` models `str.isprintable` on a
single character, and `wspace` models membership in the regex class `\s`. -/
structure PyText where
  nfkd : List Char → List Char
  combining : Char → Bool
  printable : Char → Bool
  wspace : Char → Bool

/-- The double-quote character (code 34). -/
def quoteChar : Char := Char.ofNat 34

/-- The apostrophe character (code 39). -/
def apostChar : Char := Char.ofNat 39

/-- The backslash character (code 92). -/
def backslashChar : Char := Char.ofNat 92

/-- The backtick character (code 96). -/
def backtickChar : Char := Char.ofNat 96

/-- The opening curly brace character (code 123). -/
def lbraceChar : Char := Char.ofNat 123

/-- The closing curly brace character (code 125). -/
def rbraceChar : Char := Char.ofNat 125

/-- The substitution table of `sanitize_filename` (source `char_map`,
`issuu_scraper.py` lines 152-176), in source order; a key maps to the list
of characters of its replacement string. -/
def char_map : List (Char × List Char) :=
  [ ('<', ['(']),
    ('>', [')']),
    (':', ['-']),
    (quoteChar, [apostChar]),
    ('/', ['-']),
    (backslashChar, ['-']),
    ('|', ['-']),
    ('?', []),
    ('*', []),
    ('&', ['a', 'n', 'd']),
    ('#', ['N', 'o', '.']),
    ('%', ['p', 'c', 't']),
    (lbraceChar, ['(']),
    (rbraceChar, [')']),
    ('~', ['-']),
    ('+', ['p', 'l', 'u', 's']),
    ('@', ['a', 't']),
    ('!', []),
    (backtickChar, [apostChar]),
    ('=', ['-']),
    (';', [',']),
    ('[', ['(']),
    (']', [')']) ]

/-- The forbidden characters: the keys of the substitution table. -/
def forbiddenChars : List Char := char_map.map Prod.fst

/-- Python `s.replace (c, r)` for a one-character needle `c`: every
occurrence of `c` is replaced by the string `r`. -/
def pyReplace (s : List Char) (c : Char) (r : List Char) : List Char :=
  s.foldr (fun ch acc => if ch = c then r ++ acc else ch :: acc) []

/-- The loop `for char, replacement in char_map.items (): filename =
filename.replace (char, replacement)` over an arbitrary table. -/
def applyMap (m : List (Char × List Char)) (s : List Char) : List Char :=
  m.foldl (fun acc p => pyReplace acc p.1 p.2) s

/-- Model of `re.sub` for a one-character-class plus pattern: every maximal run of
characters satisfying `p` is replaced by the single character `rep`.
Models `re.sub (r"\s+", " ", s)` and `re.sub (r"-+", "-", s)`. -/
def collapseRuns (p : Char → Bool) (rep : Char) : List Char → List Char
  | [] => []
  | [c] => if p c then [rep] else [c]
  | c :: d :: rest =>
    if p c && p d then collapseRuns p rep (d :: rest)
    else (if p c then rep else c) :: collapseRuns p rep (d :: rest)

/-- Membership in the strip set of `filename.strip (" -")`. -/
def isSpaceDash (c : Char) : Bool := c = ' ' || c = '-'

/-- Step 1 of `sanitize_filename`: NFKD-normalize, then drop combining
characters (lines 148-149). -/
def stepNorm (pt : PyText) (s : List Char) : List Char :=
  (pt.nfkd s).filter (fun c => ! pt.combining c)

/-- Step 2: apply the substitution table (lines 178-179). -/
def stepSubst (s : List Char) : List Char := applyMap char_map s

/-- Step 3: keep only printable characters (line 182). -/
def stepPrint (pt : PyText) (s : List Char) : List Char := s.filter pt.printable

/-- Step 4: collapse whitespace runs to a single space, then dash runs to a
single dash (lines 185-186). -/
def stepCollapse (pt : PyText) (s : List Char) : List Char :=
  collapseRuns (fun c => c = '-') '-' (collapseRuns pt.wspace ' ' s)

/-- Step 5: strip spaces and dashes from both ends (line 189). -/
def stepStrip (s : List Char) : List Char :=
  (s.dropWhile isSpaceDash).rdropWhile isSpaceDash

/-- Python `s.rfind (c)`: index of the last occurrence of `c`, or `-1`. -/
def pyRfind (c : Char) (s : List Char) : Int :=
  match s.reverse.findIdx? (· = c) with
  | none => -1
  | some k => ((s.length - 1 - k : Nat) : Int)

/-- Model of `posixpath.splitext`: split off the extension at the last dot, provided
the dot lies after the last path separator and at least one non-dot
character stands between them (CPython `genericpath._splitext`). -/
def pySplitext (s : List Char) : List Char × List Char :=
  if pyRfind '/' s < pyRfind '.' s then
    if ((s.drop (pyRfind '/' s + 1).toNat).take
          (pyRfind '.' s - pyRfind '/' s - 1).toNat).any (fun c => c ≠ '.') then
      (s.take (pyRfind '.' s).toNat, s.drop (pyRfind '.' s).toNat)
    else (s, [])
  else (s, [])

/-- Python slicing `s[:k]` for an `Int` bound `k`: a negative bound counts
from the end, clamping at zero. -/
def pySliceTo (s : List Char) (k : Int) : List Char :=
  if 0 ≤ k then s.take k.toNat else s.take (s.length - (-k).toNat)

/-- Step 6: if the whole filename is longer than 255 characters, cut the
name portion to `255 - len (ext)` characters and re-append the extension
(lines 192-194). -/
def stepTrunc (s : List Char) : List Char :=
  if 255 < s.length then
    pySliceTo (pySplitext s).1 (255 - ((pySplitext s).2.length : Int)) ++ (pySplitext s).2
  else s

/-- The fallback name of step 7 (line 198). -/
def fallbackName : List Char :=
  ['u', 'n', 'n', 'a', 'm', 'e', 'd', '_', 'd', 'o', 'c', 'u', 'm', 'e', 'n', 't']

/-- Step 7: substitute the fallback name for an empty result (lines 197-198). -/
def stepFallback (s : List Char) : List Char := if s = [] then fallbackName else s

/-- Model of `IssuuScraper.sanitize_filename` (lines 137-200): the seven policy steps
in source order. -/
def sanitize_filename (pt : PyText) (s : List Char) : List Char :=
  stepFallback (stepTrunc (stepStrip (stepCollapse pt (stepPrint pt (stepSubst (stepNorm pt s))))))

/-- A concrete `PyText` instance agreeing with CPython on ASCII input:
NFKD is the identity on ASCII, no ASCII character is combining, the
printable ASCII characters are codes 32-126, and the ASCII regex
whitespace is space, tab, newline and carriage return. -/
def asciiPT : PyText where
  nfkd := id
  combining := fun _ => false
  printable := fun c => 0x20 ≤ c.toNat && c.toNat ≤ 0x7e
  wspace := fun c => c = ' ' || c = Char.ofNat 9 || c = Char.ofNat 10 || c = Char.ofNat 13

/-- Byte length of a string under UTF-8, for the byte-vs-character question
about the truncation step. -/
def utf8Bytes (s : List Char) : Nat := (s.map Char.utf8Size).sum

/-- U+00DF, a printable two-byte character that NFKD leaves unchanged. -/
def eszett : Char := Char.ofNat 0xdf

/-- A `PyText` instance agreeing with CPython on ASCII and on U+00DF:
U+00DF is printable, non-combining and NFKD-stable. -/
def latinPT : PyText where
  nfkd := id
  combining := fun _ => false
  printable := fun c => (0x20 ≤ c.toNat && c.toNat ≤ 0x7e) || c.toNat = 0xdf
  wspace := fun c => c = ' '

/-- The sanitizer intermediate just before the truncation step (end of
step 5). -/
def preTrunc (pt : PyText) (s : List Char) : List Char :=
  stepStrip (stepCollapse pt (stepPrint pt (stepSubst (stepNorm pt s))))

/-- Input whose sanitized form ends in a space exposed by truncation. -/
def cexIdem : List Char := List.replicate 254 'a' ++ [' ', 'b', 'c']

/-- A 300-character name with a four-character extension. -/
def cexTrunc : List Char := List.replicate 300 'a' ++ ['.', 'p', 'd', 'f']

/-- Three hundred copies of U+00DF: 300 characters, 600 UTF-8 bytes. -/
def cexBytes : List Char := List.replicate 300 eszett

/-! ### Model of the resolver, fetch phase, assembler and worker -/

/-- The metadata dictionary returned by `IssuuScraper.get_document_data`
(`issuu_scraper.py` lines 71-77); each `.get` may yield `None`, and
`pageCount` defaults to `0`. -/
structure DocData where
  publication_id : Option String
  page_count : Nat
  title : Option (List Char)
  revision_id : Option String
  publishDate : Option String
  deriving DecidableEq

/-- The parsed `document` object of the `initial-data` JSON, with every
field optional, as produced by `data.get(...).get("document", ...)`. -/
structure RawDoc where
  publicationId : Option String
  pageCount : Option Nat
  title : Option (List Char)
  revisionId : Option String
  publishDate : Option String
  deriving DecidableEq

/-- Model of `IssuuScraper.get_document_data` (lines 54-87).  The input models the
outcome of the HTTP fetch and HTML parse: `none` is a transport error or a
missing `initial-data` script tag (the raised error is caught and `None`
returned); `some none` is a present tag whose `document` object is empty
(falls through to `raise ValueError`, caught, `None`); `some (some raw)` is
an extracted document object, returned as a dictionary even when its
`publicationId` or `revisionId` entries are `None`. -/
def get_document_data (page : Option (Option RawDoc)) : Option DocData :=
  match page with
  | none => none
  | some none => none
  | some (some raw) =>
      some { publication_id := raw.publicationId
             page_count := raw.pageCount.getD 0
             title := raw.title
             revision_id := raw.revisionId
             publishDate := raw.publishDate }

/-- Python truthiness of an optional string: `None` and `""` are falsy. -/
def pyTruthy : Option String → Bool
  | none => false
  | some s => !s.isEmpty

/-- Oracles for one publication's fetch phase: the outcome of each page's
first download attempt, the outcome of its retry attempt, the order in
which `as_completed` yields the first-pass futures (a permutation of the
submitted pages), and whether `create_pdf` succeeds. -/
structure FetchEnv where
  firstTry : Nat → Bool
  retryTry : Nat → Bool
  order : List Nat
  pdfOk : Bool

/-- The first-pass accounting loop (lines 242-250): iterate the futures in
completion order with `enumerate (as_completed (futures), 1)`, counting
successes and appending the enumeration index `i` — not the page number —
to `failed_pages` on failure. -/
def firstPassFrom (ft : Nat → Bool) : Nat → List Nat → Nat × List Nat
  | _, [] => (0, [])
  | i, p :: rest =>
    if ft p then ((firstPassFrom ft (i + 1) rest).1 + 1, (firstPassFrom ft (i + 1) rest).2)
    else ((firstPassFrom ft (i + 1) rest).1, i :: (firstPassFrom ft (i + 1) rest).2)

/-- First pass over the completion order, starting the enumeration at 1. -/
def firstPass (ft : Nat → Bool) (order : List Nat) : Nat × List Nat :=
  firstPassFrom ft 1 order

/-- Outcome record of `IssuuScraper.scrape_publication`: its return value,
whether the metadata guard was passed (the fetch pipeline entered), the
pages submitted in the first pass, the page numbers attempted in the retry
pass, and whether an artifact was produced. -/
structure ScrapeResult where
  success : Bool
  entered : Bool
  firstAttempts : List Nat
  retryAttempts : List Nat
  pdfCreated : Bool
  deriving DecidableEq

/-- Model of `IssuuScraper.scrape_publication` (lines 202-285).  The guard (line
206) rejects a failed resolution or a falsy `publication_id`; a `None`
title raises `TypeError` inside `sanitize_filename` (line 214), caught at
line 283.  Otherwise pages `1..page_count` are submitted, the first-pass
loop runs over the completion order, a zero success count returns `False`
(line 252), the retry loop re-attempts exactly the recorded `failed_pages`
entries (lines 257-268), and the result is `create_pdf`'s outcome. -/
def scrape_publication (env : FetchEnv) (docOpt : Option DocData) : ScrapeResult :=
  match docOpt with
  | none => ⟨false, false, [], [], false⟩
  | some d =>
    if pyTruthy d.publication_id = false then ⟨false, false, [], [], false⟩
    else
      match d.title with
      | none => ⟨false, false, [], [], false⟩
      | some _ =>
        if (firstPass env.firstTry env.order).1 = 0 then
          ⟨false, true, List.range' 1 d.page_count, [], false⟩
        else
          ⟨env.pdfOk, true, List.range' 1 d.page_count,
            (firstPass env.firstTry env.order).2, env.pdfOk⟩

/-- Zero-padding `f"{n:03d}"`. -/
def pad3 (n : Nat) : List Char :=
  List.replicate (3 - (Nat.toDigits 10 n).length) '0' ++ Nat.toDigits 10 n

/-- The basename of a page image, `f"page_{page_num:03d}.jpg"` (line 231). -/
def pageImageName (n : Nat) : List Char :=
  ['p', 'a', 'g', 'e', '_'] ++ pad3 n ++ ['.', 'j', 'p', 'g']

/-- The extension filter of `create_pdf` (line 122). -/
def jpgSuffix : List Char := ['.', 'j', 'p', 'g']

/-- Model of `IssuuScraper.create_pdf` (lines 118-131): keep the `.jpg` entries of
the directory listing, join each to the folder path, sort
lexicographically, and fail when no image remains; on success the sorted
list is the page order of the artifact. -/
def create_pdf (folder : List Char) (listing : List (List Char)) : Option (List (List Char)) :=
  if ((listing.filter (fun f => decide (jpgSuffix <:+ f))).map
        (fun f => folder ++ '/' :: f)).insertionSort (· ≤ ·) = [] then none
  else some (((listing.filter (fun f => decide (jpgSuffix <:+ f))).map
        (fun f => folder ++ '/' :: f)).insertionSort (· ≤ ·))

/-- Oracles for one publication reference in `scraper_worker.main`: the
resolved metadata, whether `dateutil` parses its publish date to a value
after `CUTOFF_DATE`, the fetch-phase oracles, and whether
`upload_to_drive` returns (`false` models its raised exception). -/
structure PubInfo where
  docData : Option DocData
  dateOk : Bool
  fetch : FetchEnv
  uploadOk : Bool

/-- Observable events of one reference's processing in the worker loop
(`scraper_worker.py` lines 144-196). -/
inductive Ev where
  | resolveFailed
  | skipProcessed
  | skipNoDate
  | skipCutoff
  | scrapeFailed
  | scraped
  | uploadFailed
  | recordBook
  | ledgerWrite (id : Option String)
  deriving DecidableEq

/-- Model of `is_publication_processed` (lines 59-61): membership of the id in the
ledger. -/
def is_publication_processed (L : List (Option String)) (pid : Option String) : Bool :=
  L.any (fun q => q = pid)

/-- Result of processing one reference: the event trace, the ledger
afterwards, whether a record was appended to `new_books`, and whether an
exception escaped (terminating the loops). -/
structure StepResult where
  trace : List Ev
  ledger : List (Option String)
  bookAdded : Bool
  raised : Bool
  deriving DecidableEq

/-- One iteration of the worker's per-publication loop (lines 144-196):
skip on failed resolution, on a ledger hit, on a missing publish date and
on the cutoff; then scrape; on success upload (an upload failure raises
out of the loop), append to `new_books`, and finally
`save_processed_publication` writes the ledger. -/
def processPub (L : List (Option String)) (p : PubInfo) : StepResult :=
  match p.docData with
  | none => ⟨[Ev.resolveFailed], L, false, false⟩
  | some d =>
    if is_publication_processed L d.publication_id then ⟨[Ev.skipProcessed], L, false, false⟩
    else if pyTruthy d.publishDate = false then ⟨[Ev.skipNoDate], L, false, false⟩
    else if p.dateOk = false then ⟨[Ev.skipCutoff], L, false, false⟩
    else if (scrape_publication p.fetch p.docData).success = false then
      ⟨[Ev.scrapeFailed], L, false, false⟩
    else if p.uploadOk = false then ⟨[Ev.scraped, Ev.uploadFailed], L, false, true⟩
    else ⟨[Ev.scraped, Ev.recordBook, Ev.ledgerWrite d.publication_id],
          L ++ [d.publication_id], true, false⟩

/-- The worker's loop over all references of the run (both nested source
loops flattened), threading the ledger and the `new_books` count; a raised
exception stops the remaining references. -/
def runPubs (L : List (Option String)) (nb : Nat) :
    List PubInfo → List (Option String) × Nat × Bool
  | [] => (L, nb, false)
  | p :: rest =>
    if (processPub L p).raised then ((processPub L p).ledger, nb, true)
    else runPubs (processPub L p).ledger
      (nb + if (processPub L p).bookAdded then 1 else 0) rest

/-- Outcome of a whole worker run (`main`, lines 126-209): final ledger,
notified book count, whether an exception escaped, and whether the
notification email was sent (lines 199-203; a raised exception skips it). -/
structure RunResult where
  ledger : List (Option String)
  books : Nat
  raised : Bool
  emailSent : Bool
  deriving DecidableEq

/-- A worker run over a reference list starting from ledger `L`. -/
def runWorker (L : List (Option String)) (pubs : List PubInfo) : RunResult :=
  { ledger := (runPubs L 0 pubs).1
    books := (runPubs L 0 pubs).2.1
    raised := (runPubs L 0 pubs).2.2
    emailSent := !(runPubs L 0 pubs).2.2 && decide (0 < (runPubs L 0 pubs).2.1) }

/-- The full pipeline of one reference succeeds: resolution, ledger miss,
date present and after the cutoff, scrape (fetch plus assembly), upload. -/
def pipelineOk (L : List (Option String)) (p : PubInfo) : Bool :=
  match p.docData with
  | none => false
  | some d =>
    !(is_publication_processed L d.publication_id) &&
      pyTruthy d.publishDate && p.dateOk &&
      (scrape_publication p.fetch p.docData).success && p.uploadOk

/-- The pipeline of one reference reaches the upload call: every stage
before upload succeeded. -/
def reachesUpload (L : List (Option String)) (p : PubInfo) : Bool :=
  match p.docData with
  | none => false
  | some d =>
    !(is_publication_processed L d.publication_id) &&
      pyTruthy d.publishDate && p.dateOk &&
      (scrape_publication p.fetch p.docData).success

/-! ### Concrete inputs used by counterexamples and witnesses -/

/-- First-pass outcome oracle: page 1 fails, page 2 succeeds. -/
def ftCex : Nat → Bool := fun p => decide (p = 2)

/-- Fetch oracles with completion order `[2, 1]` (page 2 finishes first). -/
def envCex : FetchEnv :=
  { firstTry := ftCex, retryTry := fun _ => false, order := [2, 1], pdfOk := true }

/-- A two-page publication descriptor. -/
def docCex : DocData :=
  { publication_id := some "p", page_count := 2, title := some ['t'],
    revision_id := some "r", publishDate := some "d" }

/-- Fetch oracles where every attempt succeeds, for an `n`-page first pass
in submission order. -/
def envAllOk (n : Nat) : FetchEnv :=
  { firstTry := fun _ => true, retryTry := fun _ => true,
    order := List.range' 1 n, pdfOk := true }

/-- A one-page publication "p1". -/
def doc1 : DocData :=
  { publication_id := some "p1", page_count := 1, title := some ['t'],
    revision_id := some "r1", publishDate := some "2025-02-01" }

/-- A one-page publication "p2". -/
def doc2 : DocData :=
  { publication_id := some "p2", page_count := 1, title := some ['u'],
    revision_id := some "r2", publishDate := some "2025-03-01" }

/-- A reference whose pipeline succeeds up to upload, whose upload raises. -/
def pubUploadFails : PubInfo :=
  { docData := some doc1, dateOk := true, fetch := envAllOk 1, uploadOk := false }

/-- A reference whose whole pipeline would succeed. -/
def pubGood : PubInfo :=
  { docData := some doc2, dateOk := true, fetch := envAllOk 1, uploadOk := true }

/-- A zero-page publication descriptor. -/
def docZero : DocData :=
  { publication_id := some "pz", page_count := 0, title := some ['t'],
    revision_id := some "rz", publishDate := some "2025-02-01" }

/-- A raw document object with a publication id but no revision id. -/
def rawNoRev : RawDoc :=
  { publicationId := some "p", pageCount := some 3, title := some ['t'],
    revisionId := none, publishDate := none }

/-- Adjacent-pair predicate on strings: `Q` holds of every pair of
neighbouring characters.  (An inductive rather than `List.Chain'` so that
it never reduces on a large applied argument.) -/
inductive AdjOK (Q : Char → Char → Prop) : List Char → Prop
  | nil : AdjOK Q []
  | single (c : Char) : AdjOK Q [c]
  | cons {a b : Char} {l : List Char} :
      Q a b → AdjOK Q (b :: l) → AdjOK Q (a :: b :: l)

/-- Boolean lexicographic strict comparison of strings by code point,
agreeing with the `List Char` order (Python string comparison). -/
def listLtB : List Char → List Char → Bool
  | [], [] => false
  | [], _ :: _ => true
  | _ :: _, [] => false
  | a :: s, b :: t => if a < b then true else if b < a then false else listLtB s t

/-- Boolean check that every adjacent pair of a list satisfies `f`. -/
def adjAllB (f : Nat → Nat → Bool) : List Nat → Bool
  | [] => true
  | [_] => true
  | a :: b :: rest => f a b && adjAllB f (b :: rest)


/-! ### Provenance lemmas for the sanitizer -/

theorem pyReplace_cons (ch : Char) (s : List Char) (c : Char) (r : List Char) :
    pyReplace (ch :: s) c r =
      if ch = c then r ++ pyReplace s c r else ch :: pyReplace s c r := rfl

theorem mem_pyReplace {x : Char} :
    ∀ {s : List Char} {c : Char} {r : List Char},
      x ∈ pyReplace s c r → x ∈ r ∨ (x ∈ s ∧ x ≠ c)
  | [], _, _, h => by simp [pyReplace] at h
  | ch :: s, c, r, h => by
    rw [pyReplace_cons] at h
    by_cases hc : ch = c
    · rw [if_pos hc] at h
      rcases List.mem_append.mp h with h | h
      · exact Or.inl h
      · rcases @mem_pyReplace x s c r h with h1 | ⟨h2, h3⟩
        · exact Or.inl h1
        · exact Or.inr ⟨List.mem_cons_of_mem _ h2, h3⟩
    · rw [if_neg hc] at h
      rcases List.mem_cons.mp h with rfl | h
      · exact Or.inr ⟨List.mem_cons_self _ _, hc⟩
      · rcases @mem_pyReplace x s c r h with h1 | ⟨h2, h3⟩
        · exact Or.inl h1
        · exact Or.inr ⟨List.mem_cons_of_mem _ h2, h3⟩

theorem pyReplace_eq_self {s : List Char} {c : Char} {r : List Char} (h : c ∉ s) :
    pyReplace s c r = s := by
  induction s with
  | nil => rfl
  | cons ch s ih =>
    have hc : ch ≠ c := fun e => h (e ▸ List.mem_cons_self _ _)
    simp only [pyReplace, List.foldr_cons, if_neg hc]
    exact congrArg _ (ih fun hm => h (List.mem_cons_of_mem _ hm))

theorem mem_applyMap {x : Char} :
    ∀ {m : List (Char × List Char)} {s : List Char},
      x ∈ applyMap m s → x ∈ s ∨ ∃ p ∈ m, x ∈ p.2
  | [], s, h => Or.inl h
  | p :: m, s, h => by
    rcases @mem_applyMap x m (pyReplace s p.1 p.2) h with h1 | ⟨q, hq, hx⟩
    · rcases mem_pyReplace h1 with h2 | ⟨h3, _⟩
      · exact Or.inr ⟨p, List.mem_cons_self _ _, h2⟩
      · exact Or.inl h3
    · exact Or.inr ⟨q, List.mem_cons_of_mem _ hq, hx⟩

theorem not_mem_applyMap {x : Char} {m : List (Char × List Char)} {s : List Char}
    (hs : x ∉ s) (hr : ∀ p ∈ m, x ∉ p.2) : x ∉ applyMap m s := by
  intro h
  rcases mem_applyMap h with h1 | ⟨p, hp, hx⟩
  · exact hs h1
  · exact hr p hp hx

theorem key_not_mem_applyMap :
    ∀ (m : List (Char × List Char)),
      (∀ p ∈ m, ∀ q ∈ m, ∀ y ∈ q.2, y ≠ p.1) →
      ∀ (s : List Char), ∀ p ∈ m, p.1 ∉ applyMap m s
  | [], _, _, _, hp => absurd hp (List.not_mem_nil _)
  | q :: m, h, s, p, hp => by
    rcases List.mem_cons.mp hp with rfl | hp'
    · intro hmem
      have hmem' : p.1 ∈ applyMap m (pyReplace s p.1 p.2) := hmem
      rcases mem_applyMap hmem' with h1 | ⟨q', hq', hx⟩
      · rcases mem_pyReplace h1 with h2 | ⟨_, h3⟩
        · exact h p (List.mem_cons_self _ _) p (List.mem_cons_self _ _) _ h2 rfl
        · exact h3 rfl
      · exact h p (List.mem_cons_self _ _) q' (List.mem_cons_of_mem _ hq') _ hx rfl
    · exact key_not_mem_applyMap m
        (fun a ha b hb => h a (List.mem_cons_of_mem _ ha) b (List.mem_cons_of_mem _ hb))
        (pyReplace s q.1 q.2) p hp'

theorem forbidden_not_mem_stepSubst (s : List Char) :
    ∀ c ∈ forbiddenChars, c ∉ stepSubst s := by
  intro c hc
  simp only [forbiddenChars, List.mem_map] at hc
  obtain ⟨p, hp, rfl⟩ := hc
  exact key_not_mem_applyMap char_map (by decide) s p hp

theorem mem_of_mem_stepPrint {pt : PyText} {x : Char} {l : List Char}
    (h : x ∈ stepPrint pt l) : x ∈ l := List.mem_of_mem_filter h

theorem printable_of_mem_stepPrint {pt : PyText} {x : Char} {l : List Char}
    (h : x ∈ stepPrint pt l) : pt.printable x = true := List.of_mem_filter h

theorem stepPrint_eq_self {pt : PyText} {l : List Char}
    (h : ∀ x ∈ l, pt.printable x = true) : stepPrint pt l = l :=
  List.filter_eq_self.mpr h

theorem mem_stepSubst {x : Char} {l : List Char} (h : x ∈ stepSubst l) :
    x ∈ l ∨ ∃ p ∈ char_map, x ∈ p.2 := mem_applyMap h

theorem mem_collapseRuns {x : Char} (p : Char → Bool) (rep : Char) :
    ∀ (s : List Char), x ∈ collapseRuns p rep s → x = rep ∨ (x ∈ s ∧ p x = false)
  | [], h => by simp [collapseRuns] at h
  | [c], h => by
    by_cases hc : p c
    · simp only [collapseRuns, if_pos hc, List.mem_singleton] at h
      exact Or.inl h
    · simp only [collapseRuns, if_neg hc, List.mem_singleton] at h
      exact Or.inr ⟨h ▸ List.mem_singleton_self _, h ▸ Bool.of_not_eq_true hc⟩
  | c :: d :: rest, h => by
    simp only [collapseRuns] at h
    by_cases hcd : p c && p d
    · rw [if_pos hcd] at h
      rcases mem_collapseRuns p rep (d :: rest) h with h1 | ⟨h2, h3⟩
      · exact Or.inl h1
      · exact Or.inr ⟨List.mem_cons_of_mem _ h2, h3⟩
    · rw [if_neg hcd] at h
      rcases List.mem_cons.mp h with h1 | h1
      · by_cases hc : p c
        · rw [if_pos hc] at h1; exact Or.inl h1
        · rw [if_neg hc] at h1
          exact Or.inr ⟨h1 ▸ List.mem_cons_self _ _, h1 ▸ Bool.of_not_eq_true hc⟩
      · rcases mem_collapseRuns p rep (d :: rest) h1 with h2 | ⟨h3, h4⟩
        · exact Or.inl h2
        · exact Or.inr ⟨List.mem_cons_of_mem _ h3, h4⟩

theorem pySplitext_fst_append_snd (s : List Char) :
    (pySplitext s).1 ++ (pySplitext s).2 = s := by
  unfold pySplitext
  split
  · split
    · exact List.take_append_drop _ s
    · exact List.append_nil s
  · exact List.append_nil s

theorem pySplitext_snd_suffix (s : List Char) : (pySplitext s).2 <:+ s := by
  unfold pySplitext
  split
  · split
    · exact List.drop_suffix _ s
    · exact List.nil_suffix
  · exact List.nil_suffix

theorem mem_pySliceTo {x : Char} {s : List Char} {k : Int} (h : x ∈ pySliceTo s k) : x ∈ s := by
  unfold pySliceTo at h
  split at h <;> exact List.mem_of_mem_take h

theorem mem_stepTrunc {x : Char} {s : List Char} (h : x ∈ stepTrunc s) : x ∈ s := by
  unfold stepTrunc at h
  split at h
  · rcases List.mem_append.mp h with h1 | h1
    · have : x ∈ (pySplitext s).1 := mem_pySliceTo h1
      rw [← pySplitext_fst_append_snd s]
      exact List.mem_append_left _ this
    · rw [← pySplitext_fst_append_snd s]
      exact List.mem_append_right _ h1
  · exact h

theorem mem_stepStrip {x : Char} {s : List Char} (h : x ∈ stepStrip s) : x ∈ s := by
  unfold stepStrip at h
  exact (List.dropWhile_suffix _).mem (( List.rdropWhile_prefix _ _).mem h)

/-- Where a character of the sanitizer output can come from: the fallback
name, the space or dash inserted by the collapse step, or a survivor of the
printable filter (which is then neither whitespace nor a dash-run member). -/
theorem sanitize_provenance (pt : PyText) (s : List Char) {x : Char}
    (hx : x ∈ sanitize_filename pt s) :
    x ∈ fallbackName ∨ x = ' ' ∨ x = '-' ∨
      (x ∈ stepPrint pt (stepSubst (stepNorm pt s)) ∧ pt.wspace x = false) := by
  unfold sanitize_filename stepFallback at hx
  split at hx
  · exact Or.inl hx
  · have h1 : x ∈ stepCollapse pt (stepPrint pt (stepSubst (stepNorm pt s))) :=
      mem_stepStrip (mem_stepTrunc hx)
    unfold stepCollapse at h1
    rcases mem_collapseRuns _ '-' _ h1 with h2 | ⟨h3, _⟩
    · exact Or.inr (Or.inr (Or.inl h2))
    · rcases mem_collapseRuns _ ' ' _ h3 with h4 | ⟨h5, h6⟩
      · exact Or.inr (Or.inl h4)
      · exact Or.inr (Or.inr (Or.inr ⟨h5, h6⟩))

theorem sanitize_ne_nil (pt : PyText) (s : List Char) : sanitize_filename pt s ≠ [] := by
  unfold sanitize_filename stepFallback
  split
  · decide
  · assumption

/-! ### Identity lemmas: when each sanitizer step leaves its input unchanged -/

theorem applyMap_eq_self :
    ∀ (m : List (Char × List Char)) (s : List Char),
      (∀ p ∈ m, p.1 ∉ s) → applyMap m s = s
  | [], _, _ => rfl
  | q :: m, s, h => by
    have h1 : pyReplace s q.1 q.2 = s := pyReplace_eq_self (h q (List.mem_cons_self _ _))
    have h2 : applyMap (q :: m) s = applyMap m (pyReplace s q.1 q.2) := rfl
    rw [h2, h1]
    exact applyMap_eq_self m s fun p hp => h p (List.mem_cons_of_mem _ hp)

theorem stepSubst_eq_self {l : List Char} (h : ∀ p ∈ char_map, p.1 ∉ l) :
    stepSubst l = l := applyMap_eq_self char_map l h

theorem collapseRuns_nil (p : Char → Bool) (rep : Char) : collapseRuns p rep [] = [] := rfl

theorem collapseRuns_singleton (p : Char → Bool) (rep c : Char) :
    collapseRuns p rep [c] = if p c then [rep] else [c] := rfl

theorem collapseRuns_cons₂ (p : Char → Bool) (rep c d : Char) (rest : List Char) :
    collapseRuns p rep (c :: d :: rest) =
      if p c && p d then collapseRuns p rep (d :: rest)
      else (if p c then rep else c) :: collapseRuns p rep (d :: rest) := rfl

theorem collapseRuns_head? (p : Char → Bool) (rep : Char) :
    ∀ (d : Char) (rest : List Char),
      (collapseRuns p rep (d :: rest)).head? = some (if p d then rep else d)
  | d, [] => by
    rw [collapseRuns_singleton]
    by_cases hd : p d
    · rw [if_pos hd, if_pos hd]; rfl
    · rw [if_neg hd, if_neg hd]; rfl
  | d, e :: rest => by
    rw [collapseRuns_cons₂]
    by_cases hd : p d
    · by_cases he : p e
      · have hb : (p d && p e) = true := by rw [hd, he]; rfl
        rw [if_pos hb, collapseRuns_head? p rep e rest, if_pos he, if_pos hd]
      · have hb : ¬((p d && p e) = true) := by simp [he]
        rw [if_neg hb, if_pos hd]
        rfl
    · have hb : ¬((p d && p e) = true) := by simp [hd]
      rw [if_neg hb, if_neg hd]
      rfl

theorem adjOK_cons' {Q : Char → Char → Prop} {x : Char} {l : List Char}
    (h1 : ∀ y, l.head? = some y → Q x y) (h2 : AdjOK Q l) : AdjOK Q (x :: l) := by
  cases l with
  | nil => exact AdjOK.single x
  | cons b t => exact AdjOK.cons (h1 b rfl) h2

theorem adjOK_cons_inv {Q : Char → Char → Prop} {a b : Char} {l : List Char}
    (h : AdjOK Q (a :: b :: l)) : Q a b ∧ AdjOK Q (b :: l) := by
  cases h with
  | cons hq ht => exact ⟨hq, ht⟩

theorem adjOK_tail {Q : Char → Char → Prop} {a : Char} {l : List Char}
    (h : AdjOK Q (a :: l)) : AdjOK Q l := by
  cases h with
  | single => exact AdjOK.nil
  | cons _ ht => exact ht

theorem adjOK_append_right {Q : Char → Char → Prop} :
    ∀ (t : List Char) {l : List Char}, AdjOK Q (t ++ l) → AdjOK Q l
  | [], _, h => h
  | _ :: t, _, h => adjOK_append_right t (adjOK_tail h)

theorem adjOK_append_left {Q : Char → Char → Prop} :
    ∀ {l₁ : List Char} (l₂ : List Char), AdjOK Q (l₁ ++ l₂) → AdjOK Q l₁
  | [], _, _ => AdjOK.nil
  | [c], _, _ => AdjOK.single c
  | a :: b :: l, l₂, h => by
    have hi := adjOK_cons_inv (show AdjOK Q (a :: b :: (l ++ l₂)) from h)
    exact AdjOK.cons hi.1 (@adjOK_append_left Q (b :: l) l₂ hi.2)

theorem adjOK_suffix {Q : Char → Char → Prop} {l₁ l₂ : List Char}
    (hs : l₁ <:+ l₂) (h : AdjOK Q l₂) : AdjOK Q l₁ := by
  obtain ⟨t, ht⟩ := hs
  exact adjOK_append_right t (ht ▸ h)

theorem adjOK_prefix {Q : Char → Char → Prop} {l₁ l₂ : List Char}
    (hs : l₁ <+: l₂) (h : AdjOK Q l₂) : AdjOK Q l₁ := by
  obtain ⟨t, ht⟩ := hs
  exact adjOK_append_left t (ht ▸ h)

theorem collapseRuns_adjOK (p : Char → Bool) (rep : Char) (Q : Char → Char → Prop)
    (hl : ∀ a, Q a rep) (hr : ∀ b, Q rep b) :
    ∀ (s : List Char), AdjOK Q s → AdjOK Q (collapseRuns p rep s)
  | [], _ => AdjOK.nil
  | [c], _ => by
    rw [collapseRuns_singleton]
    by_cases hc : p c
    · rw [if_pos hc]; exact AdjOK.single _
    · rw [if_neg hc]; exact AdjOK.single _
  | c :: d :: rest, h => by
    obtain ⟨hcd, htail⟩ := adjOK_cons_inv h
    rw [collapseRuns_cons₂]
    by_cases hpc : p c
    · by_cases hpd : p d
      · have hb : (p c && p d) = true := by rw [hpc, hpd]; rfl
        rw [if_pos hb]
        exact collapseRuns_adjOK p rep Q hl hr (d :: rest) htail
      · have hb : ¬((p c && p d) = true) := by simp [hpd]
        rw [if_neg hb, if_pos hpc]
        refine adjOK_cons' ?_ (collapseRuns_adjOK p rep Q hl hr (d :: rest) htail)
        intro y _
        exact hr y
    · have hb : ¬((p c && p d) = true) := by simp [hpc]
      rw [if_neg hb, if_neg hpc]
      refine adjOK_cons' ?_ (collapseRuns_adjOK p rep Q hl hr (d :: rest) htail)
      intro y hy
      rw [collapseRuns_head? p rep d rest] at hy
      rcases Option.some_inj.mp hy with rfl
      by_cases hpd : p d
      · rw [if_pos hpd]; exact hl c
      · rw [if_neg hpd]; exact hcd

theorem collapseRuns_adjOK_not_adjacent (p : Char → Bool) (rep : Char) :
    ∀ (s : List Char),
      AdjOK (fun a b => ¬(p a = true ∧ p b = true)) (collapseRuns p rep s)
  | [] => AdjOK.nil
  | [c] => by
    rw [collapseRuns_singleton]
    by_cases hc : p c
    · rw [if_pos hc]; exact AdjOK.single _
    · rw [if_neg hc]; exact AdjOK.single _
  | c :: d :: rest => by
    rw [collapseRuns_cons₂]
    by_cases hpc : p c
    · by_cases hpd : p d
      · have hb : (p c && p d) = true := by rw [hpc, hpd]; rfl
        rw [if_pos hb]
        exact collapseRuns_adjOK_not_adjacent p rep (d :: rest)
      · have hb : ¬((p c && p d) = true) := by simp [hpd]
        rw [if_neg hb]
        refine adjOK_cons' ?_ (collapseRuns_adjOK_not_adjacent p rep (d :: rest))
        intro y hy
        rw [collapseRuns_head? p rep d rest] at hy
        rcases Option.some_inj.mp hy with rfl
        rw [if_neg hpd]
        exact fun hc => hpd hc.2
    · have hb : ¬((p c && p d) = true) := by simp [hpc]
      rw [if_neg hb, if_neg hpc]
      refine adjOK_cons' ?_ (collapseRuns_adjOK_not_adjacent p rep (d :: rest))
      intro y _
      exact fun hc => hpc hc.1

theorem collapseRuns_eq_self (p : Char → Bool) (rep : Char) :
    ∀ (s : List Char), (∀ x ∈ s, p x = true → x = rep) →
      AdjOK (fun a b => ¬(p a = true ∧ p b = true)) s →
      collapseRuns p rep s = s
  | [], _, _ => rfl
  | [c], hall, _ => by
    rw [collapseRuns_singleton]
    by_cases hc : p c
    · rw [if_pos hc, hall c (List.mem_singleton_self _) hc]
    · rw [if_neg hc]
  | c :: d :: rest, hall, hch => by
    obtain ⟨hcd, htail⟩ := adjOK_cons_inv hch
    rw [collapseRuns_cons₂]
    by_cases hpc : p c
    · by_cases hpd : p d
      · exact absurd ⟨hpc, hpd⟩ hcd
      · have hb : ¬((p c && p d) = true) := by simp [hpd]
        rw [if_neg hb, if_pos hpc]
        have hc : c = rep := hall c (List.mem_cons_self _ _) hpc
        conv_rhs => rw [hc]
        exact congrArg _ (collapseRuns_eq_self p rep (d :: rest)
          (fun x hx => hall x (List.mem_cons_of_mem _ hx)) htail)
    · have hb : ¬((p c && p d) = true) := by simp [hpc]
      rw [if_neg hb, if_neg hpc]
      exact congrArg _ (collapseRuns_eq_self p rep (d :: rest)
        (fun x hx => hall x (List.mem_cons_of_mem _ hx)) htail)

theorem dropWhile_head?_not (p : Char → Bool) :
    ∀ (l : List Char) (x : Char), (l.dropWhile p).head? = some x → ¬ p x
  | [], x, h => by simp at h
  | hd :: tl, x, h => by
    by_cases hp : p hd
    · rw [List.dropWhile_cons_of_pos hp] at h
      exact dropWhile_head?_not p tl x h
    · rw [List.dropWhile_cons_of_neg hp] at h
      rcases Option.some_inj.mp h with rfl
      exact hp

theorem dropWhile_eq_self_of_head? {p : Char → Bool} {l : List Char} {x : Char}
    (h : l.head? = some x) (hx : ¬ p x) : l.dropWhile p = l := by
  cases l with
  | nil => rfl
  | cons hd tl =>
    rcases Option.some_inj.mp h with rfl
    exact List.dropWhile_cons_of_neg hx

theorem stepStrip_idem (z : List Char) : stepStrip (stepStrip z) = stepStrip z := by
  unfold stepStrip
  cases hrd : ((z.dropWhile isSpaceDash).rdropWhile isSpaceDash).head? with
  | none =>
    rw [List.head?_eq_none_iff] at hrd
    rw [hrd]
    rfl
  | some x =>
    have hne : (z.dropWhile isSpaceDash).rdropWhile isSpaceDash ≠ [] := by
      intro e
      rw [e] at hrd
      simp at hrd
    obtain ⟨t, ht⟩ := List.rdropWhile_prefix isSpaceDash (z.dropWhile isSpaceDash)
    have hu : (z.dropWhile isSpaceDash).head? = some x := by
      rw [← ht, List.head?_append_of_ne_nil _ hne, hrd]
    have hx : ¬ isSpaceDash x := dropWhile_head?_not isSpaceDash z x hu
    rw [dropWhile_eq_self_of_head? hrd hx, List.rdropWhile_idempotent]

/-! ### The worker loop: ledger discipline and failure propagation -/

theorem prefix_of_append_singleton {α : Type} {t u init : List α} {e : α}
    (h : t ++ u = init ++ [e]) (hu : u ≠ []) : t <+: init := by
  have hlen : t.length ≤ init.length := by
    have := congrArg List.length h
    simp only [List.length_append, List.length_singleton] at this
    have hu1 : 1 ≤ u.length := List.length_pos.mpr hu
    omega
  have hpre : t <+: init ++ [e] := ⟨u, h⟩
  rw [List.prefix_iff_eq_take] at hpre
  rw [List.take_append_of_le_length hlen] at hpre
  rw [hpre]
  exact List.take_prefix _ _

/-- Claim C1: a ledger record for a publication's id is written if and only
if the full pipeline (resolution, ledger miss, date checks, fetch and
assembly via `scrape_publication`, upload) completed successfully for that
publication, and the ledger write is the last event of the reference's
trace, so an interruption at any proper prefix of the trace leaves the
ledger without the entry and the publication is reprocessed next run. -/
theorem ledger_written_iff_pipeline_success (L : List (Option String)) (p : PubInfo) :
    ((∃ i, Ev.ledgerWrite i ∈ (processPub L p).trace) ↔ pipelineOk L p = true) ∧
    ((processPub L p).ledger = L ↔ pipelineOk L p = false) ∧
    (∀ t, t <+: (processPub L p).trace → (∃ i, Ev.ledgerWrite i ∈ t) →
      t = (processPub L p).trace) := by
  unfold processPub pipelineOk
  cases hd : p.docData with
  | none =>
    refine ⟨by simp, by simp, ?_⟩
    intro t hpre ⟨i, hi⟩
    have := hpre.subset hi
    simp at this
  | some d =>
    dsimp only
    by_cases h1 : is_publication_processed L d.publication_id
    · rw [if_pos h1]
      refine ⟨by simp [h1], by simp [h1], ?_⟩
      intro t hpre ⟨i, hi⟩
      have := hpre.subset hi
      simp at this
    · rw [if_neg h1]
      by_cases h2 : pyTruthy d.publishDate = false
      · rw [if_pos h2]
        refine ⟨by simp [h1, h2], by simp [h1, h2], ?_⟩
        intro t hpre ⟨i, hi⟩
        have := hpre.subset hi
        simp at this
      · rw [if_neg h2]
        by_cases h3 : p.dateOk = false
        · rw [if_pos h3]
          refine ⟨by simp [h1, h2, h3], by simp [h1, h2, h3], ?_⟩
          intro t hpre ⟨i, hi⟩
          have := hpre.subset hi
          simp at this
        · rw [if_neg h3]
          by_cases h4 : (scrape_publication p.fetch (some d)).success = false
          · rw [if_pos h4]
            refine ⟨by simp [h1, h2, h3, h4], by simp [h1, h2, h3, h4], ?_⟩
            intro t hpre ⟨i, hi⟩
            have := hpre.subset hi
            simp at this
          · rw [if_neg h4]
            by_cases h5 : p.uploadOk = false
            · rw [if_pos h5]
              refine ⟨by simp [h1, h2, h3, h4, h5], by simp [h1, h2, h3, h4, h5], ?_⟩
              intro t hpre ⟨i, hi⟩
              have := hpre.subset hi
              simp at this
            · rw [if_neg h5]
              constructor
              · simp only [Bool.not_eq_false] at h2 h3 h4 h5
                simp [h1, h2, h3, h4, h5]
              constructor
              · simp only [Bool.not_eq_false] at h2 h3 h4 h5
                constructor
                · intro he
                  have := congrArg List.length he
                  simp at this
                · intro he
                  simp [h1, h2, h3, h4, h5] at he
              · intro t hpre ⟨i, hi⟩
                obtain ⟨u, hu⟩ := hpre
                by_cases hun : u = []
                · rw [hun, List.append_nil] at hu
                  exact hu
                · exfalso
                  have ht : t <+: [Ev.scraped, Ev.recordBook] := by
                    refine @prefix_of_append_singleton Ev t u
                      [Ev.scraped, Ev.recordBook] (Ev.ledgerWrite d.publication_id)
                      ?_ hun
                    simpa using hu
                  have := ht.subset hi
                  simp at this

theorem ledger_written_iff_pipeline_success_witness :
    [Ev.scraped, Ev.recordBook, Ev.ledgerWrite (some "p2")]
      = (processPub [] pubGood).trace :=
  (ledger_written_iff_pipeline_success [] pubGood).2.2
    [Ev.scraped, Ev.recordBook, Ev.ledgerWrite (some "p2")]
    (by decide) ⟨some "p2", by decide⟩

/-- Claim C3 counterexample: with an empty ledger and two references, the
first of which fails only at upload while the second would fully succeed,
the run raises, ends with an empty ledger and an unprocessed second
reference, and sends no notification — the batch does not continue past a
single upload failure. -/
theorem upload_failure_stops_batch_cex :
    pipelineOk [] pubGood = true ∧
    runPubs [] 0 [pubUploadFails, pubGood] = ([], 0, true) ∧
    (runWorker [] [pubUploadFails, pubGood]).ledger = [] ∧
    some "p2" ∉ (runWorker [] [pubUploadFails, pubGood]).ledger ∧
    (runWorker [] [pubUploadFails, pubGood]).emailSent = false := by decide

/-- Claim C3 (amended): if the upload step fails for a publication that
reached it, that publication is not recorded in the ledger and not counted
for the notification, and the raised exception terminates the whole run:
the remaining references are not processed and no notification is sent. -/
theorem upload_failure_aborts_run (L : List (Option String)) (p : PubInfo)
    (rest : List PubInfo) (hup : p.uploadOk = false) (hr : reachesUpload L p = true) :
    runPubs L 0 (p :: rest) = (L, 0, true) ∧
    (runWorker L (p :: rest)).emailSent = false ∧
    (runWorker L (p :: rest)).ledger = L := by
  unfold reachesUpload at hr
  have hstep : processPub L p = ⟨[Ev.scraped, Ev.uploadFailed], L, false, true⟩ := by
    unfold processPub
    cases hd : p.docData with
    | none => rw [hd] at hr; exact absurd hr (by simp)
    | some d =>
      rw [hd] at hr
      simp only [Bool.and_eq_true, Bool.not_eq_true'] at hr
      obtain ⟨⟨⟨hh1, hh2⟩, hh3⟩, hh4⟩ := hr
      dsimp only
      rw [if_neg (by simp [hh1]), if_neg (by simp [hh2]), if_neg (by simp [hh3]),
        if_neg (by simp [hh4]), if_pos hup]
  have hrun : runPubs L 0 (p :: rest) = (L, 0, true) := by
    unfold runPubs
    rw [hstep]
    rfl
  refine ⟨hrun, ?_, ?_⟩
  · unfold runWorker
    rw [hrun]
    rfl
  · unfold runWorker
    rw [hrun]

theorem upload_failure_aborts_run_witness :
    runPubs [] 0 [pubUploadFails, pubGood] = ([], 0, true) ∧
    (runWorker [] [pubUploadFails, pubGood]).emailSent = false ∧
    (runWorker [] [pubUploadFails, pubGood]).ledger = [] :=
  upload_failure_aborts_run [] pubUploadFails [pubGood] (by decide) (by decide)

/-! ### The fetch phase: first-pass accounting and the retry pass -/

/-- Claim C2: the first-pass loop records `enumerate` indices taken over
the completion order, not the numbers of the pages whose fetches failed.
With two pages where page 1 fails and page 2 succeeds, and the valid
completion order in which page 2 finishes first, the recorded failed set
is `{2}` although page 2's own fetch succeeded and page 1's failure is
recorded under the wrong number; the claimed accounting identity "each
recorded failed page is a page whose own fetch failed" is violated, while
the count identity `succeeded + failed = N` still holds. -/
theorem first_pass_records_completion_indices :
    ([2, 1] : List Nat).Perm (List.range' 1 2) ∧
    firstPass ftCex [2, 1] = (1, [2]) ∧
    ftCex 2 = true ∧
    ftCex 1 = false ∧
    1 ∉ (firstPass ftCex [2, 1]).2 := by decide

/-- Claim C5: the retry pass re-attempts the recorded `failed_pages`
entries, which are completion indices; with page 1 failing and page 2
succeeding under completion order `[2, 1]`, the retry pass attempts page 2
(which already succeeded) exactly once and never re-attempts page 1
(which failed), refuting "each page that failed the first pass is retried
exactly once". -/
theorem retry_pass_misses_failed_page :
    (scrape_publication envCex (some docCex)).retryAttempts = [2] ∧
    ftCex 1 = false ∧
    1 ∉ (scrape_publication envCex (some docCex)).retryAttempts ∧
    ftCex 2 = true := by decide

/-- Claim C10: a publication resolving with `pageCount = 0` leads to an
empty submission list, an empty first pass, no retry pass, no artifact and
a `False` return from `scrape_publication`; the worker therefore writes no
ledger entry for it, so it is re-attempted on the next run. -/
theorem zero_page_publication_never_recorded (env : FetchEnv) (d : DocData)
    (L : List (Option String)) (dateOk uploadOk : Bool)
    (hN : d.page_count = 0) (hord : env.order.Perm (List.range' 1 d.page_count)) :
    (scrape_publication env (some d)).firstAttempts = [] ∧
    (scrape_publication env (some d)).retryAttempts = [] ∧
    (scrape_publication env (some d)).pdfCreated = false ∧
    (scrape_publication env (some d)).success = false ∧
    (processPub L ⟨some d, dateOk, env, uploadOk⟩).ledger = L := by
  have horder : env.order = [] := by
    rw [hN] at hord
    exact List.Perm.eq_nil (by simpa using hord)
  have hfp : firstPass env.firstTry env.order = (0, []) := by rw [horder]; rfl
  have hscr : (scrape_publication env (some d)).success = false ∧
      (scrape_publication env (some d)).firstAttempts = [] ∧
      (scrape_publication env (some d)).retryAttempts = [] ∧
      (scrape_publication env (some d)).pdfCreated = false := by
    unfold scrape_publication
    dsimp only
    by_cases hid : pyTruthy d.publication_id = false
    · rw [if_pos hid]
      exact ⟨rfl, rfl, rfl, rfl⟩
    · rw [if_neg hid]
      cases d.title with
      | none => exact ⟨rfl, rfl, rfl, rfl⟩
      | some t =>
        rw [if_pos (by rw [hfp])]
        exact ⟨rfl, by simp [hN], rfl, rfl⟩
  refine ⟨hscr.2.1, hscr.2.2.1, hscr.2.2.2, hscr.1, ?_⟩
  unfold processPub
  simp only
  by_cases h1 : is_publication_processed L d.publication_id
  · rw [if_pos h1]
  · rw [if_neg h1]
    by_cases h2 : pyTruthy d.publishDate = false
    · rw [if_pos h2]
    · rw [if_neg h2]
      by_cases h3 : dateOk = false
      · rw [if_pos h3]
      · rw [if_neg h3, if_pos hscr.1]

theorem zero_page_publication_never_recorded_witness :
    (scrape_publication (envAllOk 0) (some docZero)).firstAttempts = [] ∧
    (scrape_publication (envAllOk 0) (some docZero)).retryAttempts = [] ∧
    (scrape_publication (envAllOk 0) (some docZero)).pdfCreated = false ∧
    (scrape_publication (envAllOk 0) (some docZero)).success = false ∧
    (processPub [] ⟨some docZero, true, envAllOk 0, true⟩).ledger = [] :=
  zero_page_publication_never_recorded (envAllOk 0) docZero [] true true rfl (by decide)

/-! ### The resolver guard -/

/-- Claim C4 counterexample: a document object with a publication id but no
revision id is returned by `get_document_data` as a descriptor rather than
a failure, passes the pipeline guard, and enters the fetch pipeline: three
page fetches are submitted for it. -/
theorem missing_revision_enters_pipeline_cex :
    get_document_data (some (some rawNoRev))
      = some { publication_id := some "p", page_count := 3, title := some ['t'],
               revision_id := none, publishDate := none } ∧
    (scrape_publication (envAllOk 3) (get_document_data (some (some rawNoRev)))).entered
      = true ∧
    (scrape_publication (envAllOk 3)
        (get_document_data (some (some rawNoRev)))).firstAttempts = [1, 2, 3] := by decide

/-- Claim C4 (amended): the pipeline guard rejects exactly a failed
resolution, a missing or empty publication id, or a missing title (the
sanitizer raises on `None`); the revision id is not consulted, so a
descriptor with a missing revision id enters the fetch pipeline. -/
theorem resolver_guard_ignores_revision (env : FetchEnv) (raw : RawDoc) :
    ((scrape_publication env (get_document_data (some (some raw)))).entered
      = (pyTruthy raw.publicationId && raw.title.isSome)) ∧
    (scrape_publication env (get_document_data none)).entered = false ∧
    (scrape_publication env (get_document_data (some none))).entered = false := by
  refine ⟨?_, rfl, rfl⟩
  cases htl : raw.title with
  | none =>
    by_cases hid : pyTruthy raw.publicationId = false
    · simp [scrape_publication, get_document_data, hid, htl]
    · simp only [Bool.not_eq_false] at hid
      simp [scrape_publication, get_document_data, hid, htl]
  | some t =>
    by_cases hid : pyTruthy raw.publicationId = false
    · simp [scrape_publication, get_document_data, hid, htl]
    · simp only [Bool.not_eq_false] at hid
      by_cases hz : (firstPass env.firstTry env.order).1 = 0
      · simp [scrape_publication, get_document_data, hid, htl, hz]
      · simp [scrape_publication, get_document_data, hid, htl, hz]

/-! ### The sanitizer: totality, safety, idempotence, truncation -/

/-- Claim C6: for every input string, `sanitize_filename` is total and
deterministic (it is a Lean function of its input), returns a non-empty
string, and its result contains no character of the substitution table's
key set (colon, angle brackets, slash, backslash, quote, pipe, question
mark, asterisk, and the rest) and no non-printable character; the
hypotheses record that space, dash and the fallback name's characters are
printable, which holds of CPython's `str.isprintable`. -/
theorem sanitize_filename_total_safe (pt : PyText) (s : List Char)
    (h1 : pt.printable ' ' = true) (h2 : pt.printable '-' = true)
    (h3 : ∀ c ∈ fallbackName, pt.printable c = true) :
    sanitize_filename pt s ≠ [] ∧
      (∀ x ∈ sanitize_filename pt s, x ∉ forbiddenChars) ∧
      (∀ x ∈ sanitize_filename pt s, pt.printable x = true) := by
  refine ⟨sanitize_ne_nil pt s, ?_, ?_⟩
  · intro x hx
    rcases sanitize_provenance pt s hx with h | h | h | ⟨h, _⟩
    · exact (by decide : ∀ c ∈ fallbackName, c ∉ forbiddenChars) x h
    · subst h; decide
    · subst h; decide
    · exact fun hforb =>
        forbidden_not_mem_stepSubst (stepNorm pt s) x hforb (mem_of_mem_stepPrint h)
  · intro x hx
    rcases sanitize_provenance pt s hx with h | h | h | ⟨h, _⟩
    · exact h3 x h
    · subst h; exact h1
    · subst h; exact h2
    · exact printable_of_mem_stepPrint h

theorem sanitize_filename_total_safe_witness :
    sanitize_filename asciiPT ['a', ':', 'b'] ≠ [] ∧
      (∀ x ∈ sanitize_filename asciiPT ['a', ':', 'b'], x ∉ forbiddenChars) ∧
      (∀ x ∈ sanitize_filename asciiPT ['a', ':', 'b'], asciiPT.printable x = true) :=
  sanitize_filename_total_safe asciiPT ['a', ':', 'b'] (by decide) (by decide) (by decide)

set_option maxRecDepth 100000 in
/-- Claim C7 counterexample: on 254 copies of `a` followed by `" bc"`, the
sanitizer truncates to 255 characters, leaving a trailing space that a
second application strips, so `sanitize (sanitize x) ≠ sanitize x`. -/
theorem sanitize_filename_not_idempotent :
    sanitize_filename asciiPT (sanitize_filename asciiPT cexIdem)
      ≠ sanitize_filename asciiPT cexIdem := by decide

theorem adjOK_of_no_sat {P : Char → Bool} :
    ∀ {l : List Char}, (∀ c ∈ l, P c = false) →
      AdjOK (fun a b => ¬(P a = true ∧ P b = true)) l
  | [], _ => AdjOK.nil
  | [c], _ => AdjOK.single c
  | a :: b :: l, h => by
    refine AdjOK.cons ?_ (adjOK_of_no_sat fun c hc => h c (List.mem_cons_of_mem _ hc))
    intro hc
    rw [h a (List.mem_cons_self _ _)] at hc
    cases hc.1

theorem preTrunc_eq (pt : PyText) (x : List Char) :
    preTrunc pt x
      = stepStrip (stepCollapse pt (stepPrint pt (stepSubst (stepNorm pt x)))) := rfl

theorem adjOK_stepStrip {Q : Char → Char → Prop} {z : List Char}
    (h : AdjOK Q z) : AdjOK Q (stepStrip z) :=
  adjOK_prefix ( List.rdropWhile_prefix _ _)
    (adjOK_suffix (List.dropWhile_suffix _) h)

/-- Claim C7 (amended): `sanitize_filename` is idempotent on every input
whose intermediate result before the truncation step is at most 255
characters long.  The hypotheses state facts about the abstracted CPython
text functions that hold of the real library: there is a set of
NFKD-stable, non-combining characters (`stable`) that contains the output
of step 1 as well as the replacement characters, space, dash and the
fallback name, and on strings of such characters step 1 is the identity;
space, dash and the fallback characters are printable; dash and the
fallback characters are not regex whitespace.  For longer inputs the
truncation step can expose a trailing space or dash that a second
application strips — see the counterexample. -/
theorem sanitize_filename_idem_of_short (pt : PyText) (stable : Char → Bool) (x : List Char)
    (hn1 : ∀ (s : List Char), ∀ c ∈ stepNorm pt s, stable c = true)
    (hn2 : ∀ (s : List Char), (∀ c ∈ s, stable c = true) → stepNorm pt s = s)
    (hrep : ∀ p ∈ char_map, ∀ y ∈ p.2, stable y = true)
    (hst1 : stable ' ' = true) (hst2 : stable '-' = true)
    (hst3 : ∀ c ∈ fallbackName, stable c = true)
    (hw1 : pt.wspace '-' = false)
    (hw2 : ∀ c ∈ fallbackName, pt.wspace c = false)
    (hp1 : pt.printable ' ' = true) (hp2 : pt.printable '-' = true)
    (hp3 : ∀ c ∈ fallbackName, pt.printable c = true)
    (hlen : (preTrunc pt x).length ≤ 255) :
    sanitize_filename pt (sanitize_filename pt x) = sanitize_filename pt x := by
  have hTrunc : stepTrunc (preTrunc pt x) = preTrunc pt x := by
    unfold stepTrunc
    rw [if_neg (by omega)]
  have hCwGen : ∀ z : List Char,
      AdjOK (fun a b => ¬(pt.wspace a = true ∧ pt.wspace b = true))
        (stepCollapse pt z) := by
    intro z
    unfold stepCollapse
    refine collapseRuns_adjOK _ '-' _ ?_ ?_ _
      (collapseRuns_adjOK_not_adjacent pt.wspace ' ' z)
    · intro a hc
      rw [hw1] at hc
      cases hc.2
    · intro b hc
      rw [hw1] at hc
      cases hc.1
  have hCdGen : ∀ z : List Char,
      AdjOK (fun a b =>
        ¬((fun c => decide (c = '-')) a = true ∧ (fun c => decide (c = '-')) b = true))
        (stepCollapse pt z) :=
    fun z => collapseRuns_adjOK_not_adjacent _ '-' _
  generalize hR : sanitize_filename pt x = R
  have hRdef : R = stepFallback (preTrunc pt x) := by
    rw [← hR]
    show stepFallback (stepTrunc (preTrunc pt x)) = _
    rw [hTrunc]
  have hne : R ≠ [] := by
    rw [← hR]
    exact sanitize_ne_nil pt x
  have hprov : ∀ c ∈ R, c ∈ fallbackName ∨ c = ' ' ∨ c = '-' ∨
      (c ∈ stepPrint pt (stepSubst (stepNorm pt x)) ∧ pt.wspace c = false) := by
    intro c hc
    rw [← hR] at hc
    exact sanitize_provenance pt x hc
  have hkeys : ∀ p ∈ char_map, p.1 ∉ R := by
    intro p hp hmem
    rcases hprov _ hmem with h | h | h | ⟨h, _⟩
    · exact (by decide : ∀ q ∈ char_map, q.1 ∉ fallbackName) p hp h
    · exact (by decide : ∀ q ∈ char_map, ¬ q.1 = ' ') p hp h
    · exact (by decide : ∀ q ∈ char_map, ¬ q.1 = '-') p hp h
    · exact forbidden_not_mem_stepSubst (stepNorm pt x) p.1
        (List.mem_map_of_mem Prod.fst hp) (mem_of_mem_stepPrint h)
  have hprint : ∀ c ∈ R, pt.printable c = true := by
    intro c hc
    rcases hprov _ hc with h | h | h | ⟨h, _⟩
    · exact hp3 c h
    · subst h; exact hp1
    · subst h; exact hp2
    · exact printable_of_mem_stepPrint h
  have hwsp : ∀ c ∈ R, pt.wspace c = true → c = ' ' := by
    intro c hc hw
    rcases hprov _ hc with h | h | h | ⟨_, h2⟩
    · rw [hw2 c h] at hw; cases hw
    · exact h
    · rw [h, hw1] at hw; cases hw
    · rw [h2] at hw; cases hw
  have hstab : ∀ c ∈ R, stable c = true := by
    intro c hc
    rcases hprov _ hc with h | h | h | ⟨h, _⟩
    · exact hst3 c h
    · subst h; exact hst1
    · subst h; exact hst2
    · rcases mem_stepSubst (mem_of_mem_stepPrint h) with h3 | ⟨p, hp, hy⟩
      · exact hn1 x c h3
      · exact hrep p hp c hy
  have hchains : AdjOK (fun a b => ¬(pt.wspace a = true ∧ pt.wspace b = true)) R ∧
      AdjOK (fun a b =>
        ¬((fun c => decide (c = '-')) a = true ∧ (fun c => decide (c = '-')) b = true)) R ∧
      stepStrip R = R ∧ R.length ≤ 255 := by
    by_cases hT : preTrunc pt x = []
    · have hRfb : R = fallbackName := by rw [hRdef, hT]; rfl
      refine ⟨?_, ?_, ?_, ?_⟩
      · rw [hRfb]
        exact adjOK_of_no_sat hw2
      · rw [hRfb]
        exact adjOK_of_no_sat (by decide)
      · rw [hRfb]; decide
      · rw [hRfb]; decide
    · have hRT : R = preTrunc pt x := by
        rw [hRdef]
        unfold stepFallback
        rw [if_neg hT]
      have hcw := adjOK_stepStrip (hCwGen (stepPrint pt (stepSubst (stepNorm pt x))))
      have hcd := adjOK_stepStrip (hCdGen (stepPrint pt (stepSubst (stepNorm pt x))))
      have hsi := stepStrip_idem (stepCollapse pt (stepPrint pt (stepSubst (stepNorm pt x))))
      rw [← preTrunc_eq pt x, ← hRT] at hcw hcd hsi
      refine ⟨hcw, hcd, hsi, ?_⟩
      rw [hRT]
      exact hlen
  obtain ⟨hKw, hKd, hKs, hKl⟩ := hchains
  have e1 : stepNorm pt R = R := hn2 R hstab
  have e2 : stepSubst R = R := stepSubst_eq_self hkeys
  have e3 : stepPrint pt R = R := stepPrint_eq_self hprint
  have e4 : collapseRuns pt.wspace ' ' R = R :=
    collapseRuns_eq_self pt.wspace ' ' R hwsp hKw
  have e5 : collapseRuns (fun c => c = '-') '-' R = R :=
    collapseRuns_eq_self _ '-' R (fun c _ hc => of_decide_eq_true hc) hKd
  have e6 : stepCollapse pt R = R := by
    unfold stepCollapse
    rw [e4, e5]
  have e7 : stepTrunc R = R := by
    unfold stepTrunc
    rw [if_neg (by omega)]
  show stepFallback (stepTrunc (stepStrip (stepCollapse pt (stepPrint pt (stepSubst
    (stepNorm pt R)))))) = R
  rw [e1, e2, e3, e6, hKs, e7]
  unfold stepFallback
  rw [if_neg hne]

theorem sanitize_filename_idem_of_short_witness :
    sanitize_filename asciiPT (sanitize_filename asciiPT ['a', ' ', 'b'])
      = sanitize_filename asciiPT ['a', ' ', 'b'] :=
  sanitize_filename_idem_of_short asciiPT (fun _ => true) ['a', ' ', 'b']
    (fun _ _ _ => rfl) (fun s _ => by simp [stepNorm, asciiPT])
    (fun _ _ _ _ => rfl) rfl rfl (fun _ _ => rfl) (by decide) (by decide)
    (by decide) (by decide) (by decide) (by decide)

set_option maxRecDepth 100000 in
/-- Claim C8 counterexample: the length limit is a character count on the
whole filename, not a byte count on the name portion.  On 300 copies of
U+00DF the truncated result's name portion is 255 characters and 510 UTF-8
bytes, exceeding 255 bytes; and on a 300-character name with extension
`.pdf` the name portion is cut to 251 = 255 − 4 characters, not 255. -/
theorem stepTrunc_not_byte_bounded :
    255 < utf8Bytes (pySplitext (sanitize_filename latinPT cexBytes)).1 ∧
      (sanitize_filename latinPT cexBytes).length = 255 ∧
      (pySplitext (sanitize_filename asciiPT cexTrunc)).1.length = 251 ∧
      (pySplitext (sanitize_filename asciiPT cexTrunc)).2 = ['.', 'p', 'd', 'f'] := by
  decide

theorem pySliceTo_length_le (s : List Char) (k : Int) (hk : 0 ≤ k) :
    (pySliceTo s k).length ≤ k.toNat := by
  unfold pySliceTo
  rw [if_pos hk]
  exact List.length_take_le _ _

theorem stepTrunc_length_le {s : List Char} (he : (pySplitext s).2.length ≤ 255) :
    (stepTrunc s).length ≤ 255 := by
  unfold stepTrunc
  split
  · rw [List.length_append]
    have hk : (0 : Int) ≤ 255 - ((pySplitext s).2.length : Int) := by omega
    have h1 := pySliceTo_length_le (pySplitext s).1 _ hk
    have h2 : ((255 : Int) - ((pySplitext s).2.length : Int)).toNat
        = 255 - (pySplitext s).2.length := by omega
    rw [h2] at h1
    omega
  · next h => omega

/-- Claim C8 (amended): the length-limiting step runs after the character
substitution (and the other policy steps), and truncates the whole
filename to at most 255 characters — a character count with the name
portion cut to 255 minus the extension length — preserving the trailing
extension unchanged, provided the extension itself is at most 255
characters.  Measured in UTF-8 bytes the result may exceed 255. -/
theorem stepTrunc_char_bound_after_subst (pt : PyText) (x : List Char)
    (he : (pySplitext (preTrunc pt x)).2.length ≤ 255) :
    (sanitize_filename pt x).length ≤ 255 ∧
      (pySplitext (preTrunc pt x)).2 <:+ stepTrunc (preTrunc pt x) ∧
      sanitize_filename pt x = stepFallback (stepTrunc (preTrunc pt x)) := by
  refine ⟨?_, ?_, rfl⟩
  · show (stepFallback (stepTrunc (preTrunc pt x))).length ≤ 255
    unfold stepFallback
    split
    · decide
    · exact stepTrunc_length_le he
  · unfold stepTrunc
    split
    · exact List.suffix_append _ _
    · exact pySplitext_snd_suffix _

theorem stepTrunc_char_bound_after_subst_witness :
    (sanitize_filename asciiPT ['a']).length ≤ 255 ∧
      (pySplitext (preTrunc asciiPT ['a'])).2 <:+ stepTrunc (preTrunc asciiPT ['a']) ∧
      sanitize_filename asciiPT ['a'] = stepFallback (stepTrunc (preTrunc asciiPT ['a'])) :=
  stepTrunc_char_bound_after_subst asciiPT ['a'] (by decide)

/-! ### The assembler: page ordering -/

theorem listLtB_lt : ∀ {s t : List Char}, listLtB s t = true → List.Lex (· < ·) s t
  | [], _ :: _, _ => List.Lex.nil
  | a :: s, b :: t, h => by
    unfold listLtB at h
    split at h
    · rename_i hab
      exact List.Lex.rel hab
    · split at h
      · exact absurd h (by simp)
      · rename_i hab hba
        have : a = b := le_antisymm (not_lt.mp hba) (not_lt.mp hab)
        subst this
        exact List.Lex.cons (listLtB_lt h)

theorem adjAllB_chain' (f : Nat → Nat → Bool) (R : Nat → Nat → Prop)
    (hf : ∀ a b, f a b = true → R a b) :
    ∀ (l : List Nat), adjAllB f l = true → List.Chain' R l
  | [], _ => List.chain'_nil
  | [_], _ => List.chain'_singleton _
  | a :: b :: rest, h => by
    rw [show adjAllB f (a :: b :: rest) = (f a b && adjAllB f (b :: rest)) from rfl,
      Bool.and_eq_true] at h
    exact List.chain'_cons.mpr ⟨hf a b h.1, adjAllB_chain' f R hf (b :: rest) h.2⟩

set_option maxRecDepth 100000 in
theorem pageImageName_adjacent_increasing :
    adjAllB (fun a b => listLtB (pageImageName a) (pageImageName b))
      (List.range' 1 999) = true := by decide

theorem pageImageName_lt {i j : Nat} (h1 : 1 ≤ i) (h2 : i < j) (h3 : j ≤ 999) :
    pageImageName i < pageImageName j := by
  haveI : IsTrans Nat (fun a b => pageImageName a < pageImageName b) :=
    ⟨fun a b c hab hbc => lt_trans hab hbc⟩
  have hch : List.Chain' (fun a b => pageImageName a < pageImageName b)
      (List.range' 1 999) :=
    adjAllB_chain' _ _ (fun a b h => listLtB_lt h) _ pageImageName_adjacent_increasing
  have hpw := List.chain'_iff_pairwise.mp hch
  have hi : i - 1 < (List.range' 1 999).length := by
    simp only [List.length_range']
    omega
  have hj : j - 1 < (List.range' 1 999).length := by
    simp only [List.length_range']
    omega
  have hget := List.pairwise_iff_get.mp hpw ⟨i - 1, hi⟩ ⟨j - 1, hj⟩ (by simp; omega)
  simp only [List.get_eq_getElem, List.getElem_range'_1] at hget
  have e1 : 1 + (i - 1) = i := by omega
  have e2 : 1 + (j - 1) = j := by omega
  rw [e1, e2] at hget
  exact hget

theorem pageImageName_jpg (n : Nat) : jpgSuffix <:+ pageImageName n :=
  (List.suffix_append (pad3 n) jpgSuffix).trans
    (List.suffix_append ['p', 'a', 'g', 'e', '_'] (pad3 n ++ jpgSuffix))

theorem pairwise_mono_of_mem {α : Type} {R S : α → α → Prop} :
    ∀ {l : List α}, (∀ a b, a ∈ l → b ∈ l → R a b → S a b) →
      List.Pairwise R l → List.Pairwise S l
  | [], _, _ => List.Pairwise.nil
  | a :: l, h, hp => by
    obtain ⟨h1, h2⟩ := List.pairwise_cons.mp hp
    refine List.pairwise_cons.mpr ⟨?_, ?_⟩
    · intro b hb
      exact h a b (List.mem_cons_self _ _) (List.mem_cons_of_mem _ hb) (h1 b hb)
    · exact pairwise_mono_of_mem
        (fun p q hp2 hq2 => h p q (List.mem_cons_of_mem _ hp2) (List.mem_cons_of_mem _ hq2))
        h2

/-- Claim C9 (amended): for every non-empty set of page images in the
directory, listed in any order, `create_pdf` includes them in ascending
numeric page order — the lexicographic sort of the zero-padded names
matches numeric order — provided every page number is at most 999 (the
zero-padding width); at 1000 pages or more the orders diverge, see the
counterexample. -/
theorem create_pdf_orders_pages (folder : List Char) (pages : List Nat)
    (listing : List (List Char))
    (hs : List.Sorted (· < ·) pages) (hb : ∀ p ∈ pages, 1 ≤ p ∧ p ≤ 999)
    (hne : pages ≠ [])
    (hl : listing.Perm (pages.map pageImageName)) :
    create_pdf folder listing
      = some (pages.map (fun n => folder ++ '/' :: pageImageName n)) := by
  have hfilter : listing.filter (fun f => decide (jpgSuffix <:+ f)) = listing := by
    rw [List.filter_eq_self]
    intro f hf
    have hm : f ∈ pages.map pageImageName := hl.mem_iff.mp hf
    obtain ⟨n, _, rfl⟩ := List.mem_map.mp hm
    exact decide_eq_true (pageImageName_jpg n)
  have hperm : (listing.map (fun f => folder ++ '/' :: f)).Perm
      (pages.map (fun n => folder ++ '/' :: pageImageName n)) := by
    have h := hl.map (fun f => folder ++ '/' :: f)
    rwa [List.map_map] at h
  have hsorted_target : List.Sorted (· ≤ ·)
      (pages.map (fun n => folder ++ '/' :: pageImageName n)) := by
    have hpw : List.Pairwise (· < ·) pages := hs
    have hmono : List.Pairwise
        (fun a b => (folder ++ '/' :: pageImageName a) < (folder ++ '/' :: pageImageName b))
        pages := by
      refine pairwise_mono_of_mem ?_ hpw
      intro a b ha hb2 hab
      exact List.Lex.append_left _
        (List.Lex.cons (pageImageName_lt (hb a ha).1 hab (hb b hb2).2)) folder
    rw [List.Sorted, List.pairwise_map]
    exact hmono.imp le_of_lt
  have hsort_eq : ((listing.filter (fun f => decide (jpgSuffix <:+ f))).map
      (fun f => folder ++ '/' :: f)).insertionSort (· ≤ ·)
      = pages.map (fun n => folder ++ '/' :: pageImageName n) := by
    rw [hfilter]
    refine List.eq_of_perm_of_sorted ?_ ?_ hsorted_target
    · exact (List.perm_insertionSort _ _).trans hperm
    · exact List.sorted_insertionSort _ _
  unfold create_pdf
  rw [hsort_eq, if_neg]
  intro he
  rw [List.map_eq_nil_iff] at he
  exact hne he

theorem create_pdf_orders_pages_witness :
    create_pdf ['d'] [pageImageName 3, pageImageName 1, pageImageName 2]
      = some (([1, 2, 3] : List Nat).map (fun n => ['d'] ++ '/' :: pageImageName n)) :=
  create_pdf_orders_pages ['d'] [1, 2, 3]
    [pageImageName 3, pageImageName 1, pageImageName 2]
    (by decide) (by decide) (by decide) (by decide)

/-- Claim C9 counterexample: at pageCount = 1000 the zero-padded names in
numeric page order are no longer lexicographically sorted — the name
`page_1000.jpg` sorts before `page_999.jpg` — so sorting them does not
yield the numeric page order. -/
theorem page_order_breaks_at_1000 :
    (List.map pageImageName (List.range' 1 1000)).insertionSort (· ≤ ·)
      ≠ List.map pageImageName (List.range' 1 1000) := by
  intro h
  have hs := List.sorted_insertionSort (· ≤ ·)
    (List.map pageImageName (List.range' 1 1000))
  rw [h] at hs
  have h998 : (998 : Nat) < (List.map pageImageName (List.range' 1 1000)).length := by
    simp [List.length_range']
  have h999 : (999 : Nat) < (List.map pageImageName (List.range' 1 1000)).length := by
    simp [List.length_range']
  have hget := List.pairwise_iff_get.mp hs ⟨998, h998⟩ ⟨999, h999⟩ (by simp)
  simp only [List.get_eq_getElem, List.getElem_map, List.getElem_range'_1] at hget
  norm_num at hget
  exact absurd hget (by decide)

/-- The worked sanitizer example of the specification: the title
`"Issuu: Guide #1 <Draft>"` maps to `"Issuu- Guide No.1 (Draft)"`. -/
theorem sanitize_filename_spec_example :
    sanitize_filename asciiPT "Issuu: Guide #1 <Draft>".data
      = "Issuu- Guide No.1 (Draft)".data := by decide
